import Mathlib

/-!
Verification of the discovery → dedup → bounded-concurrency enrichment
pipeline of the Yahoo Finance news crawler (`yahoo_news_crawler.py`,
`supabase_manager.py`).  Python strings are modelled as Lean `String`
(lists of unicode code points, matching Python `len` semantics); the
DOM queries performed by BeautifulSoup are modelled at their interface
boundary as record fields holding the query results.
-/

/-! ## Python string primitives -/

/-- Python whitespace characters recognised by `str.strip()`. -/
def pyWs (c : Char) : Bool :=
  c == ' ' || c == '\t' || c == '\n' || c == '\r' || c == '\x0b' || c == '\x0c'

/-- `str.strip()` on a list of characters. -/
def pyStripL (l : List Char) : List Char :=
  ((l.dropWhile pyWs).reverse.dropWhile pyWs).reverse

/-- `str.strip()`. -/
def pyStrip (s : String) : String := ⟨pyStripL s.data⟩

/-- `str.lower()` (ASCII case folding; the inputs of interest are ASCII
or Chinese, and Chinese has no case). -/
def pyLower (s : String) : String := ⟨s.data.map Char.toLower⟩

/-- Decidable prefix test on character lists. -/
def isPrefL : List Char → List Char → Bool
  | [], _ => true
  | _ :: _, [] => false
  | a :: as, b :: bs => a == b && isPrefL as bs

/-- Python `needle in hay` substring containment on character lists. -/
def containsL (needle : List Char) : List Char → Bool
  | [] => needle.isEmpty
  | c :: rest => isPrefL needle (c :: rest) || containsL needle rest

/-- Python `needle in hay` substring containment on strings. -/
def hasSub (needle hay : String) : Bool := containsL needle.data hay.data

/-- Python `s.startswith(pre)`. -/
def pyStartsWith (pre s : String) : Bool := isPrefL pre.data s.data

/-- Value of a maximal digit run, given as characters. -/
def digitsToNat (l : List Char) : Nat :=
  l.foldl (fun acc c => acc * 10 + (c.toNat - '0'.toNat)) 0

/-- `re.search(r'(\d+)', s)`: the first maximal run of digits in `s`,
parsed as a natural number. -/
def firstInt : List Char → Option Nat
  | [] => none
  | c :: rest =>
    if c.isDigit then some (digitsToNat ((c :: rest).takeWhile Char.isDigit))
    else firstInt rest

/-! ## Recency Classifier (`is_within_hours`, yahoo_news_crawler.py:105-129) -/

/-- The "minutes"-style marker test of `is_within_hours`. -/
def minuteMarker (t : String) : Bool := hasSub "minute" t || hasSub "分钟" t

/-- The "hours"-style marker test of `is_within_hours`. -/
def hourMarker (t : String) : Bool := hasSub "hour" t || hasSub "小时" t

/-- The "just now"-style marker test of `is_within_hours`. -/
def nowMarker (t : String) : Bool :=
  hasSub "just now" t || hasSub "now" t || hasSub "刚刚" t || hasSub "刚才" t

/-- `YahooNewsCrawl4AICrawler.is_within_hours(time_text, max_hours)`. -/
def is_within_hours (time_text : String) (max_hours : Nat) : Bool :=
  if time_text == "" then true
  else
    let t := pyStrip (pyLower time_text)
    if minuteMarker t then true
    else if hourMarker t then
      match firstInt t.data with
      | some n => decide (n ≤ max_hours)
      | none => true
    else if nowMarker t then true
    else true

/-! ## Data model -/

/-- The article dictionary built by `parse_html_content`
(yahoo_news_crawler.py:315-322) and enriched later. -/
structure Article where
  title : String
  link : String
  time : String
  source : String
  content : String
  full_time : String
deriving DecidableEq

/-! ## Phase-1 (intra-batch) dedup
(yahoo_news_crawler.py:423-426 and 596-599) -/

/-- `any(existing['link'] == a['link'] or existing['title'] == a['title']
for existing in acc)`. -/
def clashes (a : Article) (acc : List Article) : Bool :=
  acc.any (fun e => e.link == a.link || e.title == a.title)

/-- One step of the accumulating dedup loop: keep `a` only when it
clashes with no already-retained article. -/
def dedupInsert (acc : List Article) (a : Article) : List Article :=
  if clashes a acc then acc else acc ++ [a]

/-- The intra-batch dedup loop of `crawl_with_crawl4ai` /
`crawl_fallback`: start from the empty list and insert in input order. -/
def dedup_phase1 (l : List Article) : List Article := l.foldl dedupInsert []

/-- No two retained articles share a link or share a title. -/
def NoClash (l : List Article) : Prop :=
  l.Pairwise (fun x y => x.link ≠ y.link ∧ x.title ≠ y.title)

/-! ## Phase-2 (store-level) dedup
(`SupabaseManager.check_duplicates`, supabase_manager.py:99-139) -/

/-- `check_duplicates(articles, existing_urls, existing_titles)`: returns
the surviving articles in input order together with the duplicate count
it reports.  The reported input count is the list length and the reported
surviving count is the output length. -/
def check_duplicates (articles : List Article)
    (existing_urls existing_titles : List String) : List Article × Nat :=
  match articles with
  | [] => ([], 0)
  | a :: rest =>
    let r := check_duplicates rest existing_urls existing_titles
    if existing_urls.contains a.link then (r.1, r.2 + 1)
    else if existing_titles.contains a.title then (r.1, r.2 + 1)
    else (a :: r.1, r.2)

/-! ## Store-query outcome and fail-open phase 2
(`get_existing_articles`, supabase_manager.py:46-97;
orchestrator stage 2, yahoo_news_crawler.py:430-446) -/

/-- Outcome of querying the Existing-Key Set from the store.
`ok` is a successful read; `failed` is the path where the store
collaborator errors and `get_existing_articles` catches it, returning the
pair of empty sets; `raised` is the path where the query raises out of
the manager and the orchestrator's `except` handler fires. -/
inductive StoreQuery where
  | ok (urls titles : List String)
  | failed
  | raised
deriving DecidableEq

/-- Stage 2 of `crawl_with_crawl4ai` / `crawl_fallback`: run the store
dedup on the phase-1 survivors, degrading on failure. -/
def stage2 (q : StoreQuery) (articles : List Article) : List Article :=
  match q with
  | .ok urls titles => (check_duplicates articles urls titles).1
  | .failed => (check_duplicates articles [] []).1
  | .raised => articles

/-! ## Enrichment scheduler results
(`fetch_single_article_content`, yahoo_news_crawler.py:520-551;
`fetch_articles_content_for_articles`, yahoo_news_crawler.py:489-509) -/

/-- How a single candidate's detail fetch settles: a successful fetch
carrying the extracted content and time, an `asyncio.TimeoutError`, or
any other task-level exception. -/
inductive FetchOutcome where
  | success (content ftime : String)
  | timeout
  | failed
deriving DecidableEq

/-- The in-place update a settled task applies to its candidate:
on timeout the handler assigns `{"content": "", "full_time": ""}`, and
the outer `except` clause assigns the same empty defaults. -/
def enrichOne (a : Article) (o : FetchOutcome) : Article :=
  match o with
  | .success c t => { a with content := c, full_time := t }
  | .timeout => { a with content := "", full_time := "" }
  | .failed => { a with content := "", full_time := "" }

/-- Enrich the candidates starting at task index `i`: one task per
candidate, each settling independently via `outcomes`. -/
def enrichGo (outcomes : Nat → FetchOutcome) : Nat → List Article → List Article
  | _, [] => []
  | i, a :: rest => enrichOne a (outcomes i) :: enrichGo outcomes (i + 1) rest

/-- `fetch_articles_content_for_articles`: every task is awaited
(`asyncio.gather(..., return_exceptions=True)`), each candidate's slot is
mutated in place by its own task. -/
def enrich (articles : List Article) (outcomes : Nat → FetchOutcome) : List Article :=
  enrichGo outcomes 0 articles

/-! ## Persistence handoff
(yahoo_news_crawler.py:469-479; `convert_to_supabase_format` and
`_convert_time_to_iso`, supabase_manager.py:141-199) -/

/-- `[article for article in articles_to_process if
article.get('content', '').strip()]`. -/
def filterHandoff (l : List Article) : List Article :=
  l.filter (fun a => !(pyStrip a.content == ""))

/-- Row shape produced by `convert_to_supabase_format`. -/
structure SupabaseRecord where
  id : String
  title : String
  url : String
  published_at : String
  created_at : String
  content : String
  source : String
  companies : List String
  industries : List String
  embedding_status : String
  embedding_vector_id : Option String
  embedded_at : Option String
  embedding_model : Option String
deriving DecidableEq

/-- The ISO-shape heuristic of `_convert_time_to_iso`:
`'T' in time_str and ('Z' in time_str or '+' in time_str)`. -/
def iso_like (s : String) : Bool :=
  hasSub "T" s && (hasSub "Z" s || hasSub "+" s)

/-- `_convert_time_to_iso(time_str)`, with the ambient
`datetime.now(timezone.utc).isoformat()` passed in as `now`. -/
def convert_time_to_iso (now s : String) : String :=
  if s == "" || s == "Recent" then now
  else if iso_like s then s
  else now

/-- `convert_to_supabase_format(article)`, with the generated
`uuid.uuid4()` passed in as `freshId` and the ingestion instant as
`now`. -/
def convert_to_supabase_format (now freshId : String) (a : Article) : SupabaseRecord :=
  { id := freshId
    title := a.title
    url := a.link
    published_at := convert_time_to_iso now a.full_time
    created_at := now
    content := a.content
    source := a.source
    companies := []
    industries := ["Financial News"]
    embedding_status := "pending"
    embedding_vector_id := none
    embedded_at := none
    embedding_model := none }

/-- The conversion loop of `insert_articles`, generating one fresh id per
record via `ids`. -/
def insertConvert (now : String) (ids : Nat → String) : Nat → List Article → List SupabaseRecord
  | _, [] => []
  | i, a :: rest => convert_to_supabase_format now (ids i) a :: insertConvert now ids (i + 1) rest

/-- The FILTER+HANDOFF step: the batch handed to
`supabase_manager.insert_articles`. -/
def handoffBatch (now : String) (ids : Nat → String) (l : List Article) : List SupabaseRecord :=
  insertConvert now ids 0 (filterHandoff l)

/-- Contents reachable at the end of enrichment: either the empty string
(timeout/error/empty extraction) or a `str.strip()`-fixed non-empty join
of stripped fragments produced by `_extract_article_details`. -/
def EnrichedContent (c : String) : Prop :=
  c = "" ∨ pyStrip c = c

/-! ## Bounded-concurrency scheduler
(`Semaphore(max_concurrent)` and `async with semaphore`,
yahoo_news_crawler.py:497-507 and 520-522) -/

/-- Scheduler state: tasks not yet admitted by the semaphore, tasks
currently holding a semaphore slot (in flight), and settled tasks. -/
structure SchedState where
  pending : Nat
  inflight : Nat
  done : Nat
deriving DecidableEq

/-- Interleaving steps of the enrichment pool: a pending task may start
only when the semaphore has a free slot (fewer than `limit` holders), and
an in-flight task may settle at any time. -/
inductive SchedStep (limit : Nat) : SchedState → SchedState → Prop where
  | start (p i d : Nat) : i < limit →
      SchedStep limit ⟨p + 1, i, d⟩ ⟨p, i + 1, d⟩
  | finish (p i d : Nat) :
      SchedStep limit ⟨p, i + 1, d⟩ ⟨p, i, d + 1⟩

/-- States reachable by the pool run on `n` candidates under
`Semaphore(limit)`. -/
def SchedReachable (limit n : Nat) (s : SchedState) : Prop :=
  Relation.ReflTransGen (SchedStep limit) ⟨n, 0, 0⟩ s

/-- `concurrent_limit = 3 if self.is_ci_environment else 5`
(yahoo_news_crawler.py:462): the explicit configuration input. -/
def concurrent_limit (is_ci_environment : Bool) : Nat :=
  if is_ci_environment then 3 else 5

/-! ## Detail Extractor
(`_extract_article_details`, yahoo_news_crawler.py:160-226).
BeautifulSoup queries are modelled at the interface boundary: the
`DetailDoc` holds, per ordered selector, the element the query returns,
and paragraph/visible text is carried as the `get_text(strip=True)`
result BeautifulSoup would produce. -/

/-- A timestamp element hit: its machine-readable `datetime` attribute
(when present) and its stripped visible text. -/
structure TimeElem where
  datetimeAttr : Option String
  strippedText : String
deriving DecidableEq

/-- The content container found by a content selector: the stripped text
of its visible `p` nodes carrying the `yf-` class convention, in document
order, and (when a `read-more-wrapper` div exists) the stripped text of
the paragraphs nested in it. -/
structure ContentContainer where
  visibleParas : List String
  readMore : Option (List String)
deriving DecidableEq

/-- A detail page: whether parsing raised, the per-selector results of
the four content-container selectors in order, and the per-selector
results of the four timestamp selectors in order. -/
structure DetailDoc where
  parseError : Bool
  containerHits : List (Option ContentContainer)
  timeHits : List (Option TimeElem)
deriving DecidableEq

/-- First hit of an ordered selector list (`select_one` loop with
`break`). -/
def firstSome : List (Option α) → Option α
  | [] => none
  | none :: rest => firstSome rest
  | some x :: _ => some x

/-- `'sep'.join(parts)`. -/
def joinSep (sep : String) : List String → String
  | [] => ""
  | [x] => x
  | x :: y :: rest => x ++ sep ++ joinSep sep (y :: rest)

/-- `time_element.get('datetime') or time_element.get_text(strip=True)`:
the datetime attribute when present and non-empty, else the visible
text. -/
def elemVal (e : TimeElem) : String :=
  match e.datetimeAttr with
  | some a => if a == "" then e.strippedText else a
  | none => e.strippedText

/-- The timestamp selector loop: first non-empty value wins; empty when
no selector produces one. -/
def resolveTime : List (Option TimeElem) → String
  | [] => ""
  | none :: rest => resolveTime rest
  | some e :: rest => if elemVal e == "" then resolveTime rest else elemVal e

/-- Paragraph collection inside the matched container:
`text and len(text) > 10` over the visible paragraphs, and the same test
plus the boilerplate exclusion over the read-more paragraphs. -/
def collectParts (mc : ContentContainer) : List String :=
  mc.visibleParas.filter (fun t => !(t == "") && decide (10 < t.length)) ++
    (match mc.readMore with
     | none => []
     | some ps =>
       ps.filter (fun t =>
         !(t == "") && decide (10 < t.length) &&
           !(hasSub "Read the original article" t)))

/-- `_extract_article_details(html_content, ...)` returning
`(content, full_time)`. -/
def extract_article_details (d : DetailDoc) : String × String :=
  if d.parseError then ("", "")
  else
    let parts :=
      match firstSome d.containerHits with
      | none => []
      | some mc => collectParts mc
    let content := if parts.isEmpty then "" else joinSep "\n\n" parts
    let ft := resolveTime d.timeHits
    (content, if ft == "" then "Recent" else ft)

/-- Modelled from the claim's words, for comparison with the source
function: the claim keeps every fragment that is not *shorter than 10
characters* (length at least 10), where the source keeps only fragments
of length strictly greater than 10. -/
def extractDetailsClaimed (d : DetailDoc) : String × String :=
  if d.parseError then ("", "")
  else
    let parts :=
      match firstSome d.containerHits with
      | none => []
      | some mc =>
        mc.visibleParas.filter (fun t => decide (10 ≤ t.length)) ++
          (match mc.readMore with
           | none => []
           | some ps =>
             ps.filter (fun t =>
               decide (10 ≤ t.length) &&
                 !(hasSub "Read the original article" t)))
    (joinSep "\n\n" parts,
      (((d.timeHits.filterMap id).map elemVal).find? (fun v => !(v == ""))).getD "Recent")

/-- The amended description of the Detail Extractor, written from the
spec's prose with the threshold corrected to "more than 10 characters":
content is the blank-line join of the qualifying fragments of the first
matching container, and the time is the first non-empty
datetime-attribute-else-text among the found timestamp elements, with
literal fallback `"Recent"`. -/
def extractDetailsAmended (d : DetailDoc) : String × String :=
  if d.parseError then ("", "")
  else
    let parts :=
      match firstSome d.containerHits with
      | none => []
      | some mc =>
        mc.visibleParas.filter (fun t => decide (10 < t.length)) ++
          (match mc.readMore with
           | none => []
           | some ps =>
             ps.filter (fun t =>
               decide (10 < t.length) &&
                 !(hasSub "Read the original article" t)))
    (joinSep "\n\n" parts,
      (((d.timeHits.filterMap id).map elemVal).find? (fun v => !(v == ""))).getD "Recent")

/-! ## Listing Extractor
(`parse_html_content`, yahoo_news_crawler.py:229-337).  A list item's
class attribute is carried as the string BeautifulSoup's class matcher
sees (`str(x)` over the class list); anchors carry their `aria-label`
and `href` attributes and their stripped visible text. -/

/-- An `a` element inside a list item. -/
structure Anchor where
  ariaLabel : Option String
  href : Option String
  strippedText : String
deriving DecidableEq

/-- A `li` element: its class-marker string (absent when the item has no
class attribute), its anchors in document order, and whether processing
this item raises (the per-item `except` swallows it). -/
structure Li where
  classStr : Option String
  anchors : List Anchor
  itemError : Bool
deriving DecidableEq

/-- A listing page: whether top-level parsing raises, and all `li`
elements in document order. -/
structure ListingDoc where
  parseError : Bool
  allLis : List Li
deriving DecidableEq

/-- Strict tier: `'stream-item' in str(x) and 'story-item' in str(x) and
'ad-item' not in str(x)`. -/
def strictMatch (li : Li) : Bool :=
  match li.classStr with
  | none => false
  | some c => hasSub "stream-item" c && hasSub "story-item" c && !(hasSub "ad-item" c)

/-- Loose tier: `'item' in str(x) and 'ad' not in str(x)`. -/
def looseMatch (li : Li) : Bool :=
  match li.classStr with
  | none => false
  | some c => hasSub "item" c && !(hasSub "ad" c)

/-- Last-resort tier: `item.find('a', href=True)` succeeds. -/
def hasHrefLink (li : Li) : Bool :=
  li.anchors.any (fun a => a.href.isSome)

/-- The tiered matching policy: first non-empty tier wins. -/
def selectStoryItems (lis : List Li) : List Li :=
  let strict := lis.filter strictMatch
  if !strict.isEmpty then strict
  else
    let loose := lis.filter looseMatch
    if !loose.isEmpty then loose
    else lis.filter hasHrefLink

/-- `item.find('a', {'aria-label': True})`, falling back to
`item.find('a', href=True)`. -/
def findTitleLink (li : Li) : Option Anchor :=
  match li.anchors.find? (fun a => a.ariaLabel.isSome) with
  | some a => some a
  | none => li.anchors.find? (fun a => a.href.isSome)

/-- `title = title_link.get('aria-label'); if not title:
title = title_link.get_text(strip=True)`. -/
def resolveTitle (ln : Anchor) : String :=
  match ln.ariaLabel with
  | some al => if al == "" then ln.strippedText else al
  | none => ln.strippedText

/-- Link resolution: empty hrefs are dropped, hrefs starting with `/`
are resolved against the Yahoo Finance origin, and hrefs not starting
with `http` are rejected. -/
def resolveLink (h : String) : Option String :=
  if h == "" then none
  else if pyStartsWith "/" h then some ("https://finance.yahoo.com" ++ h)
  else if pyStartsWith "http" h then some h
  else none

/-- Title and link extraction from the chosen anchor: the body of the
per-item loop after `title_link` has been found. -/
def anchorArticle (ln : Anchor) : Option Article :=
  let title := resolveTitle ln
  if title == "" || title.length < 10 then none
  else
    match ln.href with
    | none => none
    | some h =>
      match resolveLink h with
      | none => none
      | some link =>
        some { title := title, link := link, time := "Recent",
               source := "Yahoo Finance", content := "", full_time := "" }

/-- Processing of a single selected list item: the candidate it yields,
or `none` when the item is skipped. -/
def itemArticle (li : Li) : Option Article :=
  if li.itemError then none
  else
    match findTitleLink li with
    | none => none
    | some ln => anchorArticle ln

/-- The accumulation loop over the selected items: each accepted
candidate is appended to the crawler's shared `self.articles` unless it
duplicates the link or title of an already-collected one. -/
def collectItems (state : List Article) (lis : List Li) : List Article :=
  lis.foldl
    (fun acc li =>
      match itemArticle li with
      | none => acc
      | some a => dedupInsert acc a)
    state

/-- `parse_html_content(html_content)`: takes the current
`self.articles`, returns the new `self.articles` and the value the call
returns.  On a top-level parse error the state is untouched and the
empty list is returned. -/
def parse_html_content (state : List Article) (d : ListingDoc) : List Article × List Article :=
  if d.parseError then (state, [])
  else
    let st := collectItems state (selectStoryItems d.allLis)
    (st, st)

/-- A run's successive `parse_html_content` calls threading
`self.articles`, collecting each call's return value. -/
def runAux (state : List Article) : List ListingDoc → List Article × List (List Article)
  | [] => (state, [])
  | d :: rest =>
    let p := parse_html_content state d
    let r := runAux p.1 rest
    (r.1, p.2 :: r.2)

/-- The whole run, starting from the freshly initialised empty
`self.articles`. -/
def runParseCalls (docs : List ListingDoc) : List Article × List (List Article) :=
  runAux [] docs

/-! ## Concrete inputs used by witnesses and counterexamples -/

/-- Sample candidate. -/
def artA : Article :=
  { title := "Alpha stock rallies on earnings beat", link := "https://finance.yahoo.com/news/alpha",
    time := "Recent", source := "Yahoo Finance", content := "", full_time := "" }

/-- Sample candidate sharing `artA`'s link under a different title. -/
def artB : Article :=
  { title := "ALPHA STOCK RALLIES on earnings beat", link := "https://finance.yahoo.com/news/alpha",
    time := "Recent", source := "Yahoo Finance", content := "", full_time := "" }

/-- Sample candidate with its own identity. -/
def artC : Article :=
  { title := "Beta misses quarterly revenue estimates", link := "https://finance.yahoo.com/news/beta",
    time := "Recent", source := "Yahoo Finance", content := "", full_time := "" }

/-- Sample enriched candidate with non-empty content. -/
def artD : Article :=
  { title := "Gamma announces dividend increase today", link := "https://finance.yahoo.com/news/gamma",
    time := "Recent", source := "Yahoo Finance",
    content := "Gamma raised its dividend by ten percent.",
    full_time := "2025-01-01T10:00:00Z" }

/-- Detail page whose only qualifying-per-the-claim fragment has exactly
10 characters. -/
def detailDoc10 : DetailDoc :=
  { parseError := false
    containerHits := [some { visibleParas := ["abcdefghij"], readMore := none }]
    timeHits := [] }

/-- Listing item carrying an aria-labelled, relatively-linked anchor. -/
def liGood : Li :=
  { classStr := some "stream-item story-item yf-1"
    anchors := [{ ariaLabel := some "Delta shares jump after guidance raise"
                  href := some "/news/delta"
                  strippedText := "Delta shares jump" }]
    itemError := false }

/-- Listing page containing `liGood`. -/
def listingDocGood : ListingDoc :=
  { parseError := false, allLis := [liGood] }

/-- A concrete injective id generator standing in for `uuid.uuid4()` in
witnesses. -/
def wid (n : Nat) : String := ⟨List.replicate n 'a'⟩

/-- The candidate `liGood` yields. -/
def artDelta : Article :=
  { title := "Delta shares jump after guidance raise",
    link := "https://finance.yahoo.com/news/delta",
    time := "Recent", source := "Yahoo Finance", content := "", full_time := "" }

/-! ## Theorems -/

theorem clashes_eq_false_iff (a : Article) (acc : List Article) :
    clashes a acc = false ↔ ∀ e ∈ acc, e.link ≠ a.link ∧ e.title ≠ a.title := by
  simp [clashes, List.any_eq_false, not_or]

theorem clashes_append (a : Article) (l₁ l₂ : List Article) :
    clashes a (l₁ ++ l₂) = (clashes a l₁ || clashes a l₂) := by
  simp [clashes, List.any_append]

theorem foldl_dedupInsert_append (l : List Article) :
    ∀ acc, ∃ s, l.foldl dedupInsert acc = acc ++ s ∧ s.Sublist l := by
  induction l with
  | nil => intro acc; exact ⟨[], by simp⟩
  | cons a rest ih =>
    intro acc
    by_cases h : clashes a acc = true
    · obtain ⟨s, hs, hsub⟩ := ih acc
      refine ⟨s, ?_, hsub.cons a⟩
      simpa [dedupInsert, h] using hs
    · obtain ⟨s, hs, hsub⟩ := ih (acc ++ [a])
      refine ⟨a :: s, ?_, hsub.cons₂ a⟩
      simp only [List.foldl_cons, dedupInsert, h, if_neg]
      rw [Bool.not_eq_true] at h
      simp [dedupInsert, h] at hs ⊢
      simpa [List.append_assoc] using hs

theorem foldl_dedupInsert_noClash (l : List Article) :
    ∀ acc, NoClash acc → NoClash (l.foldl dedupInsert acc) := by
  induction l with
  | nil => intro acc h; simpa using h
  | cons a rest ih =>
    intro acc h
    by_cases hc : clashes a acc = true
    · simpa [dedupInsert, hc] using ih acc h
    · rw [Bool.not_eq_true] at hc
      have hstep : dedupInsert acc a = acc ++ [a] := by simp [dedupInsert, hc]
      simp only [List.foldl_cons, hstep]
      apply ih
      unfold NoClash at h ⊢
      rw [List.pairwise_append]
      refine ⟨h, by simp, ?_⟩
      intro x hx y hy
      simp at hy
      rw [hy]
      exact (clashes_eq_false_iff a acc).mp hc x hx

theorem clashes_foldl_of_clashes (l : List Article) :
    ∀ acc a, clashes a acc = true → clashes a (l.foldl dedupInsert acc) = true := by
  intro acc a h
  obtain ⟨s, hs, _⟩ := foldl_dedupInsert_append l acc
  rw [hs, clashes_append, h, Bool.true_or]

theorem clashes_foldl_of_mem (l : List Article) :
    ∀ acc a, a ∈ l → clashes a (l.foldl dedupInsert acc) = true := by
  induction l with
  | nil => intro acc a h; simp at h
  | cons b rest ih =>
    intro acc a h
    rcases List.mem_cons.mp h with h | h
    · subst h
      simp only [List.foldl_cons]
      apply clashes_foldl_of_clashes
      by_cases hc : clashes a acc = true
      · have hstep : dedupInsert acc a = acc := by simp [dedupInsert, hc]
        rw [hstep]; exact hc
      · rw [Bool.not_eq_true] at hc
        have hstep : dedupInsert acc a = acc ++ [a] := by simp [dedupInsert, hc]
        rw [hstep, clashes_append]
        have hself : clashes a [a] = true := by simp [clashes]
        rw [hself, Bool.or_true]
    · exact ih _ a h

/-- C1: phase-1 (intra-batch) dedup retains exactly the first occurrence
per (link, title) identity: the output has no two elements sharing a link
or a title, its length is at most the input length, it is a subsequence of
the input (first occurrences kept in input order, starting with the very
first input element), and every input element is represented by a retained
element sharing its link or its title. -/
theorem dedup_phase1_spec (l : List Article) :
    NoClash (dedup_phase1 l) ∧
    (dedup_phase1 l).length ≤ l.length ∧
    (dedup_phase1 l).Sublist l ∧
    (∀ a rest, l = a :: rest → (dedup_phase1 l)[0]? = some a) ∧
    (∀ a ∈ l, ∃ b ∈ dedup_phase1 l, b.link = a.link ∨ b.title = a.title) := by
  obtain ⟨s, hs, hsub⟩ := foldl_dedupInsert_append l []
  have hout : dedup_phase1 l = s := by simpa [dedup_phase1] using hs
  refine ⟨?_, ?_, ?_, ?_, ?_⟩
  · exact foldl_dedupInsert_noClash l [] (by simp [NoClash])
  · rw [hout]; exact hsub.length_le
  · rw [hout]; exact hsub
  · intro a rest hl
    subst hl
    simp only [dedup_phase1, List.foldl_cons]
    have h0 : dedupInsert [] a = [a] := by simp [dedupInsert, clashes]
    rw [h0]
    obtain ⟨s2, hs2, _⟩ := foldl_dedupInsert_append rest [a]
    rw [hs2]
    simp
  · intro a ha
    have := clashes_foldl_of_mem l [] a ha
    rw [show l.foldl dedupInsert [] = dedup_phase1 l from rfl] at this
    simp only [clashes, List.any_eq_true] at this
    obtain ⟨b, hb, hb2⟩ := this
    refine ⟨b, hb, ?_⟩
    rcases Bool.or_eq_true_iff.mp hb2 with h | h
    · exact Or.inl (by simpa using h)
    · exact Or.inr (by simpa using h)

/-- Witness for `dedup_phase1_spec` at a concrete three-article batch in
which the second article repeats the first's link. -/
theorem dedup_phase1_spec_witness :
    ∃ b ∈ dedup_phase1 [artA, artB, artC], b.link = artB.link ∨ b.title = artB.title :=
  (dedup_phase1_spec [artA, artB, artC]).2.2.2.2 artB (by decide)

theorem check_duplicates_fst (urls titles : List String) :
    ∀ articles : List Article,
      (check_duplicates articles urls titles).1
        = articles.filter (fun a => !(urls.contains a.link) && !(titles.contains a.title)) := by
  intro articles
  induction articles with
  | nil => rfl
  | cons a rest ih =>
    by_cases h1 : a.link ∈ urls
    · simp [check_duplicates, h1, ih]
    · by_cases h2 : a.title ∈ titles
      · simp [check_duplicates, h1, h2, ih]
      · simp [check_duplicates, h1, h2, ih]

theorem check_duplicates_count (urls titles : List String) :
    ∀ articles : List Article,
      (check_duplicates articles urls titles).2
          + (check_duplicates articles urls titles).1.length
        = articles.length := by
  intro articles
  induction articles with
  | nil => rfl
  | cons a rest ih =>
    by_cases h1 : a.link ∈ urls
    · simp [check_duplicates, h1]
      omega
    · by_cases h2 : a.title ∈ titles
      · simp [check_duplicates, h1, h2]
        omega
      · simp [check_duplicates, h1, h2]
        omega

/-- C2: phase-2 (store-level) dedup returns exactly the candidates whose
link is not among the existing urls and whose title is not among the
existing titles, in the original input order (a subsequence of the
input), and the reported counts are consistent: duplicates plus
survivors equals the input count. -/
theorem check_duplicates_spec (articles : List Article) (urls titles : List String) :
    (check_duplicates articles urls titles).1
        = articles.filter (fun a => !(urls.contains a.link) && !(titles.contains a.title)) ∧
    (check_duplicates articles urls titles).1.Sublist articles ∧
    (check_duplicates articles urls titles).2
        + (check_duplicates articles urls titles).1.length = articles.length ∧
    ∀ a : Article,
      a ∈ (check_duplicates articles urls titles).1
        ↔ a ∈ articles ∧ a.link ∉ urls ∧ a.title ∉ titles := by
  refine ⟨check_duplicates_fst urls titles articles, ?_, check_duplicates_count urls titles articles, ?_⟩
  · rw [check_duplicates_fst]
    exact List.filter_sublist articles
  · intro a
    rw [check_duplicates_fst]
    simp [List.mem_filter]

theorem check_duplicates_empty_sets (articles : List Article) :
    (check_duplicates articles [] []).1 = articles := by
  rw [check_duplicates_fst]
  simp

/-- C3: when the Existing-Key Set query fails — whether the store
collaborator errors inside `get_existing_articles` (which then returns a
pair of empty sets) or the query raises and the orchestrator's handler
fires — store-level dedup degrades to the identity on the phase-1
survivors: every one of them is treated as new (fail-open). -/
theorem stage2_fail_open (q : StoreQuery) (articles : List Article)
    (h : q = StoreQuery.failed ∨ q = StoreQuery.raised) :
    stage2 q articles = articles := by
  rcases h with h | h
  · rw [h]
    exact check_duplicates_empty_sets articles
  · rw [h]
    rfl

/-- Witness for `stage2_fail_open`: a concrete failed query over a
concrete two-article batch. -/
theorem stage2_fail_open_witness :
    stage2 StoreQuery.failed [artA, artC] = [artA, artC] :=
  stage2_fail_open StoreQuery.failed [artA, artC] (Or.inl rfl)

/-- Witness for `check_duplicates_spec`: the membership characterisation
at a concrete batch and Existing-Key Set. -/
theorem check_duplicates_spec_witness :
    artC ∈ (check_duplicates [artA, artC] [artA.link] []).1 ↔
      artC ∈ [artA, artC] ∧ artC.link ∉ [artA.link] ∧ artC.title ∉ ([] : List String) :=
  (check_duplicates_spec [artA, artC] [artA.link] []).2.2.2 artC

theorem enrichGo_length (outcomes : Nat → FetchOutcome) :
    ∀ (l : List Article) (k : Nat), (enrichGo outcomes k l).length = l.length := by
  intro l
  induction l with
  | nil => intro k; rfl
  | cons a rest ih => intro k; simp [enrichGo, ih]

theorem enrichGo_getElem (outcomes : Nat → FetchOutcome) :
    ∀ (l : List Article) (k i : Nat),
      (enrichGo outcomes k l)[i]? = (l[i]?).map (fun a => enrichOne a (outcomes (k + i))) := by
  intro l
  induction l with
  | nil => intro k i; simp [enrichGo]
  | cons a rest ih =>
    intro k i
    cases i with
    | zero => simp [enrichGo]
    | succ j =>
      simp only [enrichGo, List.getElem?_cons_succ]
      rw [ih (k + 1) j]
      have : k + 1 + j = k + (j + 1) := by omega
      rw [this]

theorem mem_filterHandoff (l : List Article) (x : Article) :
    x ∈ filterHandoff l → pyStrip x.content ≠ "" := by
  intro hx
  have := (List.mem_filter.mp hx).2
  simpa using this

/-- C4: a candidate whose detail fetch times out or raises any
task-level exception ends enrichment with `content = ""` and
`full_time = ""`; every candidate's slot is settled (the scheduler's
output has one entry per input, so it returns only after all tasks
settle), each slot depends only on its own candidate and outcome (no
candidate's failure disturbs another), and a candidate failing this way
is excluded from the persistence handoff set. -/
theorem enrich_failure_policy (articles : List Article) (outcomes : Nat → FetchOutcome) :
    (enrich articles outcomes).length = articles.length ∧
    (∀ i a, articles[i]? = some a →
      (enrich articles outcomes)[i]? = some (enrichOne a (outcomes i))) ∧
    (∀ i a, articles[i]? = some a →
      (outcomes i = FetchOutcome.timeout ∨ outcomes i = FetchOutcome.failed) →
      (enrich articles outcomes)[i]? = some { a with content := "", full_time := "" } ∧
        { a with content := "", full_time := "" } ∉ filterHandoff (enrich articles outcomes)) := by
  refine ⟨enrichGo_length outcomes articles 0, ?_, ?_⟩
  · intro i a ha
    rw [enrich, enrichGo_getElem outcomes articles 0 i, ha]
    simp
  · intro i a ha ho
    have hval : enrichOne a (outcomes i) = { a with content := "", full_time := "" } := by
      rcases ho with ho | ho <;> rw [ho] <;> rfl
    constructor
    · rw [enrich, enrichGo_getElem outcomes articles 0 i, ha]
      simp [hval]
    · intro hmem
      exact mem_filterHandoff _ _ hmem rfl

/-- Witness for `enrich_failure_policy`: a single candidate whose fetch
always times out. -/
theorem enrich_failure_policy_witness :
    (enrich [artA] (fun _ => FetchOutcome.timeout))[0]?
        = some { artA with content := "", full_time := "" } ∧
      { artA with content := "", full_time := "" }
        ∉ filterHandoff (enrich [artA] (fun _ => FetchOutcome.timeout)) :=
  (enrich_failure_policy [artA] (fun _ => FetchOutcome.timeout)).2.2 0 artA rfl (Or.inl rfl)

/-- C5: under `Semaphore(limit)` admission, no reachable state of the
enrichment pool has more than `limit` tasks in flight, for every input
size `n` — the bound is the configured limit, never the input size. -/
theorem scheduler_bounded (limit n : Nat) (s : SchedState)
    (h : SchedReachable limit n s) : s.inflight ≤ limit := by
  induction h with
  | refl => simp
  | tail hreach hstep ih =>
    cases hstep with
    | start p i d hi => simpa using hi
    | finish p i d =>
      simp only at ih ⊢
      omega

/-- Witness for `scheduler_bounded`: a concrete reachable state of a
10-candidate run under the CI limit 3. -/
theorem scheduler_bounded_witness :
    (⟨9, 1, 0⟩ : SchedState).inflight ≤ 3 :=
  scheduler_bounded 3 10 ⟨9, 1, 0⟩
    (Relation.ReflTransGen.single (SchedStep.start 9 0 0 (by decide)))

/-- C7: the recency classifier is a total function; on the
case-insensitive trimmed input a minutes-style marker yields `true`
unconditionally, an hours-style marker yields `true` iff the first
embedded integer is at most `max_hours` and `true` when no integer is
extractable, and inputs with neither marker (including "just now"/"now"
markers, the empty string, and unrecognised text) yield `true`; in
particular the five concrete examples hold. -/
theorem is_within_hours_spec :
    (∀ s h, minuteMarker (pyStrip (pyLower s)) = true → is_within_hours s h = true) ∧
    (∀ s h n, minuteMarker (pyStrip (pyLower s)) = false →
      hourMarker (pyStrip (pyLower s)) = true →
      firstInt (pyStrip (pyLower s)).data = some n →
      is_within_hours s h = decide (n ≤ h)) ∧
    (∀ s h, minuteMarker (pyStrip (pyLower s)) = false →
      hourMarker (pyStrip (pyLower s)) = true →
      firstInt (pyStrip (pyLower s)).data = none →
      is_within_hours s h = true) ∧
    (∀ s h, minuteMarker (pyStrip (pyLower s)) = false →
      hourMarker (pyStrip (pyLower s)) = false →
      is_within_hours s h = true) ∧
    is_within_hours "5 minutes ago" 2 = true ∧
    is_within_hours "3 hours ago" 2 = false ∧
    is_within_hours "1 hour ago" 2 = true ∧
    is_within_hours "" 2 = true ∧
    is_within_hours "just now" 2 = true := by
  refine ⟨?_, ?_, ?_, ?_, by decide, by decide, by decide, by decide, by decide⟩
  · intro s h hm
    simp [is_within_hours, hm]
  · intro s h n hm hh hfi
    by_cases hs : s = ""
    · subst hs
      exact absurd hh (by decide)
    · have hs2 : (s == "") = false := by simpa using hs
      simp [is_within_hours, hs2, hm, hh, hfi]
  · intro s h hm hh hfi
    by_cases hs : s = ""
    · subst hs
      exact absurd hh (by decide)
    · have hs2 : (s == "") = false := by simpa using hs
      simp [is_within_hours, hs2, hm, hh, hfi]
  · intro s h hm hh
    simp [is_within_hours, hm, hh]

/-- Witness for `is_within_hours_spec`: the hours clause applied at
"3 hours ago" with window 2. -/
theorem is_within_hours_spec_witness :
    is_within_hours "3 hours ago" 2 = decide (3 ≤ 2) :=
  is_within_hours_spec.2.1 "3 hours ago" 2 3 (by decide) (by decide) (by decide)

theorem wid_injective : Function.Injective wid := by
  intro a b hab
  have h2 := congrArg (fun s => s.data.length) hab
  simpa [wid] using h2

theorem insertConvert_getElem (now : String) (ids : Nat → String) :
    ∀ (l : List Article) (k i : Nat),
      (insertConvert now ids k l)[i]?
        = (l[i]?).map (fun a => convert_to_supabase_format now (ids (k + i)) a) := by
  intro l
  induction l with
  | nil => intro k i; simp [insertConvert]
  | cons a rest ih =>
    intro k i
    cases i with
    | zero => simp [insertConvert]
    | succ j =>
      simp only [insertConvert, List.getElem?_cons_succ]
      rw [ih (k + 1) j]
      have : k + 1 + j = k + (j + 1) := by omega
      rw [this]

theorem mem_insertConvert (now : String) (ids : Nat → String) :
    ∀ (l : List Article) (k : Nat) (r : SupabaseRecord),
      r ∈ insertConvert now ids k l →
      ∃ j a, k ≤ j ∧ a ∈ l ∧ r = convert_to_supabase_format now (ids j) a := by
  intro l
  induction l with
  | nil => intro k r hr; simp [insertConvert] at hr
  | cons a rest ih =>
    intro k r hr
    rcases List.mem_cons.mp hr with h | h
    · exact ⟨k, a, Nat.le_refl k, List.mem_cons_self a rest, h⟩
    · obtain ⟨j, b, hkj, hb, heq⟩ := ih (k + 1) r h
      exact ⟨j, b, by omega, List.mem_cons_of_mem a hb, heq⟩

theorem insertConvert_id_pairwise (now : String) (ids : Nat → String)
    (hids : Function.Injective ids) :
    ∀ (l : List Article) (k : Nat),
      (insertConvert now ids k l).Pairwise (fun r t => r.id ≠ t.id) := by
  intro l
  induction l with
  | nil => intro k; simp [insertConvert]
  | cons a rest ih =>
    intro k
    rw [insertConvert, List.pairwise_cons]
    refine ⟨?_, ih (k + 1)⟩
    intro t ht
    obtain ⟨j, b, hkj, _, heq⟩ := mem_insertConvert now ids rest (k + 1) t ht
    rw [heq]
    intro hcontra
    have : k = j := hids hcontra
    omega

theorem filterHandoff_eq_of_enriched (l : List Article)
    (henr : ∀ a ∈ l, EnrichedContent a.content) :
    filterHandoff l = l.filter (fun a => !(a.content == "")) := by
  apply List.filter_congr
  intro a ha
  rcases henr a ha with h | h
  · rw [h]
    rfl
  · rw [h]

/-- C6: for candidate lists whose contents are enrichment outputs, the
FILTER+HANDOFF batch consists exactly of the candidates with non-empty
content, in order; each is converted to a record carrying a fresh id
(pairwise distinct when the generator is injective), the ingestion
instant as `created_at`, a publish time that keeps an ISO-shaped
`full_time` and falls back to the ingestion instant when the raw time is
absent (`""`/`"Recent"`) or not ISO-shaped, an empty company list, the
default industry tag, embedding status `"pending"` with null
vector/model/time fields; and no record in the batch has empty
content. -/
theorem handoff_spec (now : String) (ids : Nat → String) (l : List Article)
    (henr : ∀ a ∈ l, EnrichedContent a.content)
    (hids : Function.Injective ids) :
    filterHandoff l = l.filter (fun a => !(a.content == "")) ∧
    (∀ i a, (filterHandoff l)[i]? = some a →
      (handoffBatch now ids l)[i]? = some (convert_to_supabase_format now (ids i) a)) ∧
    (∀ r ∈ handoffBatch now ids l,
      r.content ≠ "" ∧ r.companies = [] ∧ r.industries = ["Financial News"] ∧
      r.embedding_status = "pending" ∧ r.embedding_vector_id = none ∧
      r.embedded_at = none ∧ r.embedding_model = none ∧ r.created_at = now) ∧
    (∀ s, s = "" ∨ s = "Recent" ∨ iso_like s = false → convert_time_to_iso now s = now) ∧
    (∀ s, s ≠ "" → s ≠ "Recent" → iso_like s = true → convert_time_to_iso now s = s) ∧
    (handoffBatch now ids l).Pairwise (fun r t => r.id ≠ t.id) := by
  refine ⟨filterHandoff_eq_of_enriched l henr, ?_, ?_, ?_, ?_,
    insertConvert_id_pairwise now ids hids (filterHandoff l) 0⟩
  · intro i a ha
    rw [handoffBatch, insertConvert_getElem now ids (filterHandoff l) 0 i, ha]
    simp
  · intro r hr
    obtain ⟨j, a, _, ha, heq⟩ := mem_insertConvert now ids (filterHandoff l) 0 r hr
    have hne : pyStrip a.content ≠ "" := mem_filterHandoff l a ha
    have hcne : a.content ≠ "" := by
      intro hc
      exact hne (by rw [hc]; rfl)
    rw [heq]
    exact ⟨hcne, rfl, rfl, rfl, rfl, rfl, rfl, rfl⟩
  · intro s hs
    rcases hs with h | h | h
    · simp [convert_time_to_iso, h]
    · simp [convert_time_to_iso, h]
    · simp [convert_time_to_iso, h]
  · intro s h1 h2 h3
    simp [convert_time_to_iso, h1, h2, h3]

/-- Witness for `handoff_spec`: a two-candidate list in which only the
enriched candidate with non-empty content reaches the batch, converted
in place. -/
theorem handoff_spec_witness :
    (handoffBatch "2025-01-02T00:00:00+00:00" wid [artD, artA])[0]?
      = some (convert_to_supabase_format "2025-01-02T00:00:00+00:00" (wid 0) artD) :=
  (handoff_spec "2025-01-02T00:00:00+00:00" wid [artD, artA]
    (by
      intro a ha
      rcases List.mem_cons.mp ha with h | h
      · rw [h]
        exact Or.inr (by decide)
      · rw [List.mem_singleton.mp h]
        exact Or.inl rfl)
    wid_injective).2.1 0 artD (by decide)

theorem filter_len_gt (l : List String) :
    l.filter (fun t => !(t == "") && decide (10 < t.length))
      = l.filter (fun t => decide (10 < t.length)) := by
  apply List.filter_congr
  intro t _
  cases hd : decide (10 < t.length)
  · simp
  · have hlen : 10 < t.length := of_decide_eq_true hd
    have hne : (t == "") = false := by
      simp only [beq_eq_false_iff_ne, ne_eq]
      intro hc
      rw [hc] at hlen
      simp [String.length] at hlen
    simp [hne]

theorem filter_len_gt_boiler (l : List String) :
    l.filter (fun t =>
        !(t == "") && decide (10 < t.length) && !(hasSub "Read the original article" t))
      = l.filter (fun t =>
        decide (10 < t.length) && !(hasSub "Read the original article" t)) := by
  apply List.filter_congr
  intro t _
  cases hd : decide (10 < t.length)
  · simp
  · have hlen : 10 < t.length := of_decide_eq_true hd
    have hne : (t == "") = false := by
      simp only [beq_eq_false_iff_ne, ne_eq]
      intro hc
      rw [hc] at hlen
      simp [String.length] at hlen
    simp [hne]

theorem wrapRecent_resolveTime (hits : List (Option TimeElem)) :
    (if resolveTime hits == "" then "Recent" else resolveTime hits)
      = (((hits.filterMap id).map elemVal).find? (fun v => !(v == ""))).getD "Recent" := by
  induction hits with
  | nil => rfl
  | cons h rest ih =>
    cases h with
    | none => simpa [resolveTime] using ih
    | some e =>
      by_cases hv : elemVal e = ""
      · have hb : (elemVal e == "") = true := by simpa using hv
        simpa [resolveTime, hb, List.find?] using ih
      · have hb : (elemVal e == "") = false := by simpa using hv
        simp [resolveTime, hb, List.find?]

theorem joinSep_of_isEmpty (parts : List String) :
    (if parts.isEmpty then "" else joinSep "\n\n" parts) = joinSep "\n\n" parts := by
  cases parts with
  | nil => rfl
  | cons x rest => rfl

/-- Counterexample to C8 as stated: on a detail page whose container
holds exactly one fragment of exactly 10 characters, the code's
extraction (which keeps only fragments of length strictly greater than
10) yields empty content, while the claim's "filtering out fragments
shorter than 10 characters" would keep it. -/
theorem extract_details_claim_counterexample :
    extract_article_details detailDoc10 ≠ extractDetailsClaimed detailDoc10 ∧
    (extract_article_details detailDoc10).1 = "" ∧
    (extractDetailsClaimed detailDoc10).1 = "abcdefghij" := by
  refine ⟨by decide, by decide, by decide⟩

theorem extract_content_eq (d : DetailDoc) :
    (extract_article_details d).1 = (extractDetailsAmended d).1 := by
  unfold extract_article_details extractDetailsAmended
  cases hpe : d.parseError
  · cases hfs : firstSome d.containerHits with
    | none => rfl
    | some mc =>
      show (if (collectParts mc).isEmpty then "" else joinSep "\n\n" (collectParts mc))
          = joinSep "\n\n"
              (mc.visibleParas.filter (fun t => decide (10 < t.length)) ++
                match mc.readMore with
                | none => []
                | some ps =>
                  ps.filter (fun t =>
                    decide (10 < t.length) && !(hasSub "Read the original article" t)))
      rw [joinSep_of_isEmpty]
      unfold collectParts
      rw [filter_len_gt]
      cases hrm : mc.readMore with
      | none => rfl
      | some ps => simp only [filter_len_gt_boiler]
  · rfl

theorem extract_time_eq (d : DetailDoc) :
    (extract_article_details d).2 = (extractDetailsAmended d).2 := by
  unfold extract_article_details extractDetailsAmended
  cases hpe : d.parseError
  · show (if resolveTime d.timeHits == "" then "Recent" else resolveTime d.timeHits) = _
    exact wrapRecent_resolveTime d.timeHits
  · rfl

/-- C8 (amended): detail extraction is total; internal errors yield
`("", "")`; content is the blank-line join of the fragments of the first
matching container after dropping fragments of **at most 10 characters**
and, within the read-more wrapper, fragments containing "Read the
original article" (empty when no container or no qualifying fragment);
the raw publish time is the first non-empty datetime-attribute-else-text
over the ordered timestamp selector hits, with literal fallback
`"Recent"`. -/
theorem extract_details_amended_spec (d : DetailDoc) :
    extract_article_details d = extractDetailsAmended d :=
  Prod.ext_iff.mpr ⟨extract_content_eq d, extract_time_eq d⟩

theorem isEmpty_false_of_ne_nil {α : Type} (l : List α) (h : l ≠ []) :
    l.isEmpty = false := by
  cases l with
  | nil => exact absurd rfl h
  | cons a t => rfl

/-- C9: listing extraction is total — a top-level parse error returns the
empty sequence and a single item's error only skips that item; items are
selected by the tiered policy with the first non-empty tier winning
(strict, then loose, then any list item with a hyperlink); every
accepted candidate's title comes from the primary link's accessible
label when present and non-empty, else its visible text, has length at
least 10, and its link is the item's href resolved: hrefs starting with
"/" are resolved against the Yahoo Finance origin and hrefs not
starting with "http" are rejected. -/
theorem parse_listing_spec :
    (∀ (st : List Article) (d : ListingDoc), d.parseError = true →
      (parse_html_content st d).2 = []) ∧
    (∀ li : Li, li.itemError = true → itemArticle li = none) ∧
    (∀ lis : List Li,
      (lis.filter strictMatch ≠ [] → selectStoryItems lis = lis.filter strictMatch) ∧
      (lis.filter strictMatch = [] → lis.filter looseMatch ≠ [] →
        selectStoryItems lis = lis.filter looseMatch) ∧
      (lis.filter strictMatch = [] → lis.filter looseMatch = [] →
        selectStoryItems lis = lis.filter hasHrefLink)) ∧
    (∀ (li : Li) (a : Article), itemArticle li = some a →
      ∃ ln, findTitleLink li = some ln ∧ a.title = resolveTitle ln ∧
        10 ≤ a.title.length ∧
        ∃ h, ln.href = some h ∧ resolveLink h = some a.link) ∧
    (∀ ln : Anchor,
      (∀ al, ln.ariaLabel = some al → al ≠ "" → resolveTitle ln = al) ∧
      (ln.ariaLabel = none ∨ ln.ariaLabel = some "" → resolveTitle ln = ln.strippedText)) ∧
    (∀ h : String,
      (pyStartsWith "/" h = true → resolveLink h = some ("https://finance.yahoo.com" ++ h)) ∧
      (pyStartsWith "/" h = false → pyStartsWith "http" h = true → resolveLink h = some h) ∧
      (pyStartsWith "/" h = false → pyStartsWith "http" h = false → resolveLink h = none)) := by
  refine ⟨?_, ?_, ?_, ?_, ?_, ?_⟩
  · intro st d hp
    simp [parse_html_content, hp]
  · intro li he
    simp [itemArticle, he]
  · intro lis
    refine ⟨?_, ?_, ?_⟩
    · intro hne
      simp [selectStoryItems, isEmpty_false_of_ne_nil _ hne]
    · intro h1 h2
      simp [selectStoryItems, h1, isEmpty_false_of_ne_nil _ h2]
    · intro h1 h2
      simp [selectStoryItems, h1, h2]
  · intro li a hit
    cases he : li.itemError
    · cases hft : findTitleLink li with
      | none => simp [itemArticle, he, hft] at hit
      | some ln =>
        have hanch : anchorArticle ln = some a := by
          simpa [itemArticle, he, hft] using hit
        refine ⟨ln, rfl, ?_⟩
        obtain ⟨alb, hrb, txt⟩ := ln
        cases hrb with
        | none => simp [anchorArticle] at hanch
        | some hr =>
          cases hrl : resolveLink hr with
          | none => simp [anchorArticle, hrl] at hanch
          | some link =>
            simp only [anchorArticle, hrl] at hanch
            split at hanch
            · exact absurd hanch (by simp)
            · rename_i hcond
              simp only [Option.some.injEq] at hanch
              subst hanch
              simp only [Bool.or_eq_true, not_or, beq_iff_eq, decide_eq_true_eq,
                Nat.not_lt] at hcond
              exact ⟨rfl, hcond.2, hr, rfl, hrl⟩
    · simp [itemArticle, he] at hit
  · intro ln
    constructor
    · intro al hal hne
      have hb : (al == "") = false := by simpa using hne
      simp [resolveTitle, hal, hb]
    · intro hcase
      rcases hcase with h | h
      · simp [resolveTitle, h]
      · simp [resolveTitle, h]
  · intro h
    refine ⟨?_, ?_, ?_⟩
    · intro h1
      have hne : (h == "") = false := by
        by_cases hh : h = ""
        · rw [hh] at h1
          exact absurd h1 (by decide)
        · simpa using hh
      simp [resolveLink, hne, h1]
    · intro h1 h2
      have hne : (h == "") = false := by
        by_cases hh : h = ""
        · rw [hh] at h2
          exact absurd h2 (by decide)
        · simpa using hh
      simp [resolveLink, hne, h1, h2]
    · intro h1 h2
      by_cases hh : h = ""
      · simp [resolveLink, hh]
      · have hne : (h == "") = false := by simpa using hh
        simp [resolveLink, hne, h1, h2]

/-- Witness for `parse_listing_spec`: the acceptance clause at the
concrete item `liGood`, yielding `artDelta` with its aria-label title
and origin-resolved link. -/
theorem parse_listing_spec_witness :
    ∃ ln, findTitleLink liGood = some ln ∧ artDelta.title = resolveTitle ln ∧
      10 ≤ artDelta.title.length ∧
      ∃ h, ln.href = some h ∧ resolveLink h = some artDelta.link :=
  parse_listing_spec.2.2.2.1 liGood artDelta (by decide)

theorem collectItems_eq_foldl (lis : List Li) :
    ∀ state, collectItems state lis = (lis.filterMap itemArticle).foldl dedupInsert state := by
  induction lis with
  | nil => intro state; rfl
  | cons li rest ih =>
    intro state
    cases hi : itemArticle li with
    | none =>
      have h1 : collectItems state (li :: rest) = collectItems state rest := by
        rw [collectItems, List.foldl_cons]
        simp only [hi]
        rfl
      rw [h1, ih]
      simp only [List.filterMap_cons, hi]
    | some a =>
      have h1 : collectItems state (li :: rest) = collectItems (dedupInsert state a) rest := by
        rw [collectItems, List.foldl_cons]
        simp only [hi]
        rfl
      rw [h1, ih]
      simp only [List.filterMap_cons, hi, List.foldl_cons]

theorem parse_state_append (state : List Article) (d : ListingDoc) :
    ∃ ext, (parse_html_content state d).1 = state ++ ext := by
  by_cases hp : d.parseError = true
  · exact ⟨[], by simp [parse_html_content, hp]⟩
  · rw [Bool.not_eq_true] at hp
    obtain ⟨s, hs, _⟩ :=
      foldl_dedupInsert_append ((selectStoryItems d.allLis).filterMap itemArticle) state
    exact ⟨s, by simp [parse_html_content, hp, collectItems_eq_foldl, hs]⟩

theorem parse_noClash (state : List Article) (d : ListingDoc) (h : NoClash state) :
    NoClash ((parse_html_content state d).1) := by
  by_cases hp : d.parseError = true
  · simpa [parse_html_content, hp] using h
  · rw [Bool.not_eq_true] at hp
    have h1 : (parse_html_content state d).1
        = collectItems state (selectStoryItems d.allLis) := by
      simp [parse_html_content, hp]
    rw [h1, collectItems_eq_foldl]
    exact foldl_dedupInsert_noClash _ state h

theorem runAux_fst_append :
    ∀ (docs : List ListingDoc) (state : List Article),
      ∃ ext, (runAux state docs).1 = state ++ ext := by
  intro docs
  induction docs with
  | nil => intro state; exact ⟨[], by simp [runAux]⟩
  | cons d rest ih =>
    intro state
    obtain ⟨e1, he1⟩ := parse_state_append state d
    obtain ⟨e2, he2⟩ := ih ((parse_html_content state d).1)
    refine ⟨e1 ++ e2, ?_⟩
    show (runAux (parse_html_content state d).1 rest).1 = state ++ (e1 ++ e2)
    rw [he2, he1, List.append_assoc]

theorem runAux_noClash :
    ∀ (docs : List ListingDoc) (state : List Article), NoClash state →
      NoClash ((runAux state docs).1) := by
  intro docs
  induction docs with
  | nil => intro state h; simpa [runAux] using h
  | cons d rest ih =>
    intro state h
    show NoClash ((runAux (parse_html_content state d).1 rest).1)
    exact ih _ (parse_noClash state d h)

theorem runAux_append_fst (l₁ l₂ : List ListingDoc) :
    ∀ state, (runAux state (l₁ ++ l₂)).1 = (runAux (runAux state l₁).1 l₂).1 := by
  induction l₁ with
  | nil => intro state; rfl
  | cons d rest ih =>
    intro state
    show (runAux (parse_html_content state d).1 (rest ++ l₂)).1 = _
    rw [ih]
    rfl

theorem runAux_cons (state : List Article) (d : ListingDoc) (rest : List ListingDoc) :
    runAux state (d :: rest)
      = ((runAux (parse_html_content state d).1 rest).1,
         (parse_html_content state d).2 :: (runAux (parse_html_content state d).1 rest).2) :=
  rfl

theorem runAux_out_getElem :
    ∀ (docs : List ListingDoc) (state : List Article),
      (∀ d ∈ docs, d.parseError = false) →
      ∀ k, k < docs.length →
        (runAux state docs).2[k]? = some ((runAux state (docs.take (k + 1))).1) := by
  intro docs
  induction docs with
  | nil => intro state h k hk; simp at hk
  | cons d rest ih =>
    intro state h k hk
    have hd : d.parseError = false := h d (List.mem_cons_self d rest)
    cases k with
    | zero =>
      have hp : (parse_html_content state d).2 = (parse_html_content state d).1 := by
        simp [parse_html_content, hd]
      simp [runAux_cons, runAux, hp]
    | succ j =>
      have hjr : j < rest.length := by
        simp only [List.length_cons] at hk
        omega
      have hrec := ih ((parse_html_content state d).1)
        (fun x hx => h x (List.mem_cons_of_mem d hx)) j hjr
      simp only [runAux_cons, List.getElem?_cons_succ, List.take_succ_cons]
      exact hrec

/-- C10: each `parse_html_content` call returns the whole accumulated
shared article list: for an error-free run, the k-th call's return value
equals the accumulated state after calls 1..k; the accumulated state only
grows (each earlier state is a prefix of every later one); and a
candidate duplicating the link or the title of one collected by any
earlier call is dropped at extraction time, so the accumulated list never
holds two articles sharing a link or a title. -/
theorem parse_accumulation_spec (docs : List ListingDoc)
    (h : ∀ d ∈ docs, d.parseError = false) :
    (∀ k, k < docs.length →
      (runParseCalls docs).2[k]? = some ((runParseCalls (docs.take (k + 1))).1)) ∧
    (∀ j k, j ≤ k →
      ∃ ext, (runParseCalls (docs.take k)).1 = (runParseCalls (docs.take j)).1 ++ ext) ∧
    NoClash ((runParseCalls docs).1) := by
  refine ⟨?_, ?_, ?_⟩
  · intro k hk
    exact runAux_out_getElem docs [] h k hk
  · intro j k hjk
    have h2 : (docs.take k).take j = docs.take j := by
      rw [List.take_take, Nat.min_eq_left hjk]
    have h1 : docs.take j ++ (docs.take k).drop j = docs.take k := by
      rw [← h2, List.take_append_drop]
    rw [runParseCalls, runParseCalls, ← h1, runAux_append_fst]
    obtain ⟨ext, hext⟩ :=
      runAux_fst_append ((docs.take k).drop j) ((runAux [] (docs.take j)).1)
    exact ⟨ext, hext⟩
  · exact runAux_noClash docs [] (by simp [NoClash])

/-- Witness for `parse_accumulation_spec`: a one-call run on a concrete
listing page. -/
theorem parse_accumulation_spec_witness :
    (runParseCalls [listingDocGood]).2[0]?
      = some ((runParseCalls ([listingDocGood].take 1)).1) :=
  (parse_accumulation_spec [listingDocGood] (by decide)).1 0 (by decide)

theorem data_append (a b : String) : (a ++ b).data = a.data ++ b.data := rfl

theorem data_ne_nil (s : String) (h : s ≠ "") : s.data ≠ [] := by
  intro hc
  apply h
  cases s with
  | mk d =>
    have hd : d = [] := hc
    subst hd
    rfl

theorem head?_append_left {α : Type} (l₁ l₂ : List α) (h : l₁ ≠ []) :
    (l₁ ++ l₂).head? = l₁.head? := by
  cases l₁ with
  | nil => exact absurd rfl h
  | cons a t => rfl

theorem dropWhile_eq_self_of_head (l : List Char)
    (h : ∀ c, l.head? = some c → pyWs c = false) : l.dropWhile pyWs = l := by
  cases l with
  | nil => rfl
  | cons c t =>
    have := h c rfl
    simp [List.dropWhile_cons, this]

theorem head_not_ws_of_dropWhile_eq (l : List Char) (h : l.dropWhile pyWs = l) :
    ∀ c, l.head? = some c → pyWs c = false := by
  intro c hc
  cases l with
  | nil => simp at hc
  | cons a t =>
    simp only [List.head?_cons, Option.some.injEq] at hc
    subst hc
    by_contra hcon
    rw [Bool.not_eq_false] at hcon
    rw [List.dropWhile_cons, if_pos hcon] at h
    have hlen := congrArg List.length h
    simp only [List.length_cons] at hlen
    have hle : (t.dropWhile pyWs).length ≤ t.length := (List.dropWhile_sublist _).length_le
    omega

theorem strip_fixed_conds (s : String) (h : pyStrip s = s) :
    (∀ c, s.data.head? = some c → pyWs c = false) ∧
    (∀ c, s.data.reverse.head? = some c → pyWs c = false) := by
  have hdata : pyStripL s.data = s.data := congrArg String.data h
  have hd1 : s.data.dropWhile pyWs = s.data := by
    have hlen := congrArg List.length hdata
    unfold pyStripL at hlen
    simp only [List.length_reverse] at hlen
    have hle1 : ((s.data.dropWhile pyWs).reverse.dropWhile pyWs).length
        ≤ (s.data.dropWhile pyWs).reverse.length := (List.dropWhile_sublist _).length_le
    simp only [List.length_reverse] at hle1
    have hle2 : (s.data.dropWhile pyWs).length ≤ s.data.length :=
      (List.dropWhile_sublist _).length_le
    exact (List.dropWhile_sublist _).eq_of_length (by omega)
  have hd2 : s.data.reverse.dropWhile pyWs = s.data.reverse := by
    have h3 : (s.data.reverse.dropWhile pyWs).reverse = s.data := by
      have h4 := hdata
      unfold pyStripL at h4
      rw [hd1] at h4
      exact h4
    have h5 := congrArg List.reverse h3
    rw [List.reverse_reverse] at h5
    exact h5
  exact ⟨head_not_ws_of_dropWhile_eq _ hd1, head_not_ws_of_dropWhile_eq _ hd2⟩

theorem pyStrip_eq_self_of_conds (s : String)
    (h1 : ∀ c, s.data.head? = some c → pyWs c = false)
    (h2 : ∀ c, s.data.reverse.head? = some c → pyWs c = false) :
    pyStrip s = s := by
  have hds : pyStripL s.data = s.data := by
    unfold pyStripL
    rw [dropWhile_eq_self_of_head _ h1, dropWhile_eq_self_of_head _ h2, List.reverse_reverse]
  show (⟨pyStripL s.data⟩ : String) = s
  rw [hds]

theorem joinSep_ne_empty (x : String) (rest : List String) (hx : x ≠ "") :
    joinSep "\n\n" (x :: rest) ≠ "" := by
  cases rest with
  | nil => simpa [joinSep] using hx
  | cons y t =>
    intro hc
    have hdata := congrArg String.data hc
    simp only [joinSep, data_append] at hdata
    rcases List.append_eq_nil.mp hdata with ⟨h1, _⟩
    rcases List.append_eq_nil.mp h1 with ⟨h2, _⟩
    exact data_ne_nil x hx h2

theorem joinSep_strip_fixed :
    ∀ parts : List String, (∀ t ∈ parts, pyStrip t = t ∧ t ≠ "") → parts ≠ [] →
      pyStrip (joinSep "\n\n" parts) = joinSep "\n\n" parts ∧ joinSep "\n\n" parts ≠ "" := by
  intro parts
  induction parts with
  | nil => intro _ hne; exact absurd rfl hne
  | cons x rest ih =>
    intro h _
    have hx := h x (List.mem_cons_self x rest)
    cases rest with
    | nil =>
      constructor
      · simpa [joinSep] using hx.1
      · simpa [joinSep] using hx.2
    | cons y t =>
      have hJ := ih (fun u hu => h u (List.mem_cons_of_mem x hu)) (by simp)
      refine ⟨?_, joinSep_ne_empty x (y :: t) hx.2⟩
      have hJoin : joinSep "\n\n" (x :: y :: t)
          = x ++ "\n\n" ++ joinSep "\n\n" (y :: t) := rfl
      rw [hJoin]
      apply pyStrip_eq_self_of_conds
      · intro c hc
        rw [data_append, data_append, List.append_assoc,
          head?_append_left _ _ (data_ne_nil x hx.2)] at hc
        exact (strip_fixed_conds x hx.1).1 c hc
      · intro c hc
        rw [data_append, data_append, List.reverse_append,
          head?_append_left _ _ (by simpa using data_ne_nil _ hJ.2)] at hc
        exact (strip_fixed_conds _ hJ.1).2 c hc

theorem mem_collectParts_ne_empty (mc : ContentContainer) (t : String)
    (ht : t ∈ collectParts mc) : t ≠ "" := by
  unfold collectParts at ht
  rcases List.mem_append.mp ht with h | h
  · have hp := (List.mem_filter.mp h).2
    intro hc
    rw [hc] at hp
    simp at hp
  · cases hrm : mc.readMore with
    | none => simp only [hrm] at h; simp at h
    | some ps =>
      simp only [hrm] at h
      have hp := (List.mem_filter.mp h).2
      intro hc
      rw [hc] at hp
      simp at hp

/-- Supporting fact tying `handoff_spec`'s hypothesis to the extractor:
whenever the collected fragments are `get_text(strip=True)` outputs
(strip-fixed strings), the content produced by `_extract_article_details`
is enrichment-shaped: either empty or strip-fixed and non-empty. -/
theorem extract_content_enriched (d : DetailDoc)
    (hfrag : ∀ mc, firstSome d.containerHits = some mc →
      ∀ t ∈ collectParts mc, pyStrip t = t) :
    EnrichedContent (extract_article_details d).1 := by
  unfold extract_article_details
  cases hpe : d.parseError
  · cases hfs : firstSome d.containerHits with
    | none => exact Or.inl rfl
    | some mc =>
      show EnrichedContent
        (if (collectParts mc).isEmpty then "" else joinSep "\n\n" (collectParts mc))
      by_cases hemp : (collectParts mc).isEmpty = true
      · rw [if_pos hemp]
        exact Or.inl rfl
      · rw [if_neg hemp]
        have hne : collectParts mc ≠ [] := by
          intro hcon
          rw [hcon] at hemp
          exact hemp rfl
        have hall : ∀ t ∈ collectParts mc, pyStrip t = t ∧ t ≠ "" :=
          fun t ht => ⟨hfrag mc hfs t ht, mem_collectParts_ne_empty mc t ht⟩
        exact Or.inr (joinSep_strip_fixed (collectParts mc) hall hne).1
  · exact Or.inl rfl
